import Mathlib

/-
Verification development for the Gmail-to-BigQuery ETL repository
(src/etl_service/main.py and src/token_uploader/app.py).

The Python code is shallowly embedded: pure data manipulation becomes Lean
functions, external effects (Drive, Gmail, BigQuery, the filesystem) are
passed in as explicit oracles, and Python exceptions become Except values
or explicit outcome data at the points where the source can raise.
-/

namespace GmailBQ

/-- Python dict insertion semantics on an association list: assigning to an
existing key replaces the value in place (keeping the key's position),
assigning a fresh key appends it at the end.  This models the mutation
`d[k] = v` used for `email_data[msg_id] = email_entry` (main.py line 205)
and for `cache[key] = ...` (main.py line 63). -/
def pyDictInsert {β : Type} (k : String) (v : β) :
    List (String × β) → List (String × β)
  | [] => [(k, v)]
  | (k0, v0) :: rest =>
    if k0 = k then (k, v) :: rest else (k0, v0) :: pyDictInsert k v rest

/-- Python `str.endswith`: the second string is a suffix of the first,
modelled on the underlying character lists.  Used by the guard
`file_name.endswith(".json")` (main.py line 123). -/
def pyEndsWith (s suffix : String) : Bool :=
  List.isSuffixOf suffix.data s.data

/-- Contiguous slicing loop `for i in range(0, len(l), M): l[i:i+M]`
(main.py lines 240-241 with M = BATCH_SIZE, and lines 179-180 with M = 50).
For M = 0 the Python loop raises ValueError; here it returns [] and every
theorem about it assumes M is nonzero. -/
def chunks {α : Type} (M : Nat) (l : List α) : List (List α) :=
  if h : M = 0 ∨ l.isEmpty then []
  else l.take M :: chunks M (l.drop M)
termination_by l.length
decreasing_by
  simp only [not_or, List.isEmpty_iff] at h
  have h1 : 0 < l.length := List.length_pos.mpr h.2
  simp only [List.length_drop]
  omega

theorem chunks_nil {α : Type} (M : Nat) : chunks M ([] : List α) = [] := by
  rw [chunks]; simp

theorem chunks_cons {α : Type} {M : Nat} {l : List α} (hM : M ≠ 0) (hl : l ≠ []) :
    chunks M l = l.take M :: chunks M (l.drop M) := by
  rw [chunks]
  simp [hM, List.isEmpty_iff, hl]

theorem chunks_flatten {α : Type} {M : Nat} (hM : M ≠ 0) (l : List α) :
    (chunks M l).flatten = l := by
  induction l using chunks.induct M with
  | case1 l h =>
    have hl : l = [] := by
      rcases h with h | h
      · exact absurd h hM
      · exact List.isEmpty_iff.mp h
    subst hl
    rw [chunks_nil]
    rfl
  | case2 l h ih =>
    simp only [not_or, List.isEmpty_iff] at h
    rw [chunks_cons hM h.2, List.flatten_cons, ih, List.take_append_drop]

theorem chunks_length {α : Type} {M : Nat} (hM : M ≠ 0) (l : List α) :
    (chunks M l).length = (l.length + M - 1) / M := by
  induction l using chunks.induct M with
  | case1 l h =>
    have hl : l = [] := by
      rcases h with h | h
      · exact absurd h hM
      · exact List.isEmpty_iff.mp h
    subst hl
    rw [chunks_nil]
    simp only [List.length_nil]
    exact (Nat.div_eq_of_lt (by omega)).symm
  | case2 l h ih =>
    simp only [not_or, List.isEmpty_iff] at h
    have hL : 0 < l.length := List.length_pos.mpr h.2
    rw [chunks_cons hM h.2]
    simp only [List.length_cons, ih, List.length_drop]
    by_cases hc : l.length ≤ M
    · have h0 : l.length - M = 0 := by omega
      rw [h0]
      have hlt : 0 + M - 1 < M := by omega
      rw [Nat.div_eq_of_lt hlt]
      have : (l.length + M - 1) / M = 1 := by
        apply Nat.div_eq_of_lt_le
        · omega
        · omega
      omega
    · have e : l.length + M - 1 = (l.length - M + M - 1) + M := by omega
      rw [e, Nat.add_div_right _ (Nat.pos_of_ne_zero hM)]

theorem chunks_sizes {α : Type} (M : Nat) (l : List α) :
    ∀ b ∈ chunks M l, b.length ≤ M := by
  induction l using chunks.induct M with
  | case1 l h =>
    rw [chunks, dif_pos h]
    intro b hb
    exact absurd hb (List.not_mem_nil b)
  | case2 l h ih =>
    simp only [not_or, List.isEmpty_iff] at h
    rw [chunks_cons h.1 h.2]
    intro b hb
    rcases List.mem_cons.mp hb with hb | hb
    · subst hb
      simp [List.length_take]
    · exact ih b hb

theorem chunks_subset {α : Type} (M : Nat) (l : List α) :
    ∀ b ∈ chunks M l, ∀ x ∈ b, x ∈ l := by
  induction l using chunks.induct M with
  | case1 l h =>
    rw [chunks, dif_pos h]
    intro b hb
    exact absurd hb (List.not_mem_nil b)
  | case2 l h ih =>
    simp only [not_or, List.isEmpty_iff] at h
    rw [chunks_cons h.1 h.2]
    intro b hb x hx
    rcases List.mem_cons.mp hb with hb | hb
    · subst hb
      exact List.take_subset M l hx
    · exact List.drop_subset M l (ih b hb x hx)

theorem chunks_ne_nil {α : Type} {M : Nat} {l : List α} (hM : M ≠ 0) (hl : l ≠ []) :
    chunks M l ≠ [] := by
  rw [chunks_cons hM hl]
  exact List.cons_ne_nil _ _

theorem chunks_getLast {α : Type} {M : Nat} (hM : M ≠ 0) {l : List α} (hl : l ≠ []) :
    ∃ b, (chunks M l).getLast? = some b ∧
      b.length = if l.length % M = 0 then M else l.length % M := by
  induction l using chunks.induct M with
  | case1 l h =>
    rcases h with h | h
    · exact absurd h hM
    · exact absurd (List.isEmpty_iff.mp h) hl
  | case2 l h ih =>
    simp only [not_or, List.isEmpty_iff] at h
    have hL : 0 < l.length := List.length_pos.mpr h.2
    rw [chunks_cons hM h.2]
    by_cases hd : l.drop M = []
    · have hle : l.length ≤ M := List.drop_eq_nil_iff.mp hd
      rw [hd, chunks_nil]
      refine ⟨l.take M, by simp, ?_⟩
      rw [List.length_take, Nat.min_eq_right hle]
      rcases Nat.lt_or_ge l.length M with hlt | hge
      · have hmod : l.length % M = l.length := Nat.mod_eq_of_lt hlt
        simp only [hmod]
        rw [if_neg (by omega)]
      · have heq : l.length = M := by omega
        rw [heq, Nat.mod_self, if_pos rfl]
    · have hM' : M < l.length := by
        have := List.drop_eq_nil_iff.not.mp hd
        omega
      obtain ⟨b, hb1, hb2⟩ := ih hd
      refine ⟨b, ?_, ?_⟩
      · rw [List.getLast?_cons, hb1]
        rfl
      · simp only [List.length_drop] at hb2
        rw [hb2]
        have e2 : (l.length - M) % M = l.length % M := by
          conv_rhs => rw [show l.length = (l.length - M) + M from by omega]
          rw [Nat.add_mod_right]
        rw [e2]

/-- One entry of a Gmail message's `payload.headers` list. -/
structure Header where
  name : String
  value : String
deriving Repr, DecidableEq

/-- The fields of a `messages.get(format=metadata)` response that main.py
reads: `threadId` (defaulted to "" by `resp.get`), `labelIds` (defaulted to
[]), and `payload.headers`. -/
structure MessageDetail where
  threadId : String
  labelIds : List String
  headers : List Header
deriving Repr, DecidableEq

/-- The record built at main.py lines 196-204 and later inserted into
BigQuery. -/
structure EmailRecord where
  id : String
  threadId : String
  subject : Option String
  sender : Option String
  recipient : Option String
  timestamp : Option String
  combined_labels : String
deriving Repr, DecidableEq

/-- First header whose lowercased name equals n, absent gives none:
`next((h["value"] for h in headers if h["name"].lower() == n), None)`. -/
def headerValue (headers : List Header) (n : String) : Option String :=
  (headers.find? (fun h => h.name.toLower == n)).map Header.value

/-- The `email_entry` dict constructed at main.py lines 196-204. -/
def buildRecord (msg_id : String) (resp : MessageDetail) : EmailRecord where
  id := msg_id
  threadId := resp.threadId
  subject := headerValue resp.headers "subject"
  sender := headerValue resp.headers "from"
  recipient := headerValue resp.headers "to"
  timestamp := headerValue resp.headers "date"
  combined_labels := String.intercalate "," resp.labelIds

/-- One response of `users().messages().list`: the listed message ids and
whether a `nextPageToken` was present. -/
structure PageResponse where
  messages : List String
  nextPageToken : Bool
deriving Repr, DecidableEq

/-- Dedup filter applied to a page's listing before any detail fetch:
`[msg["id"] for msg in messages if msg["id"] not in existing_email_ids]`
(main.py line 175). -/
def newIds (existing : Finset String) (messages : List String) : List String :=
  messages.filter (fun m => decide (m ∉ existing))

/-- The detail-fetch sub-batches of size 50 cut from the filtered ids
(main.py lines 178-180). -/
def subBatches (ids : List String) : List (List String) :=
  chunks 50 ids

/-- Inner loop over one sub-batch (main.py lines 188-206): each id's detail
response either is an exception (logged, id dropped) or yields a record
stored into the `email_data` dict under the id. -/
def processBatch (detail : String → Except String MessageDetail)
    (acc : List (String × EmailRecord)) :
    List String → List (String × EmailRecord)
  | [] => acc
  | i :: rest =>
    match detail i with
    | Except.error _ => processBatch detail acc rest
    | Except.ok resp => processBatch detail (pyDictInsert i (buildRecord i resp) acc) rest

/-- Processing of one page's listing: filter against the existing ids, cut
into sub-batches of 50, fetch details, fill the dict. -/
def processPage (detail : String → Except String MessageDetail)
    (existing : Finset String) (acc : List (String × EmailRecord))
    (messages : List String) : List (String × EmailRecord) :=
  (subBatches (newIds existing messages)).foldl (processBatch detail) acc

/-- Observable step of the pagination loop: a page got processed, or the
0.5s pacing sleep at main.py line 211 ran. -/
inductive CrawlAction where
  | processed (messages : List String)
  | slept
deriving Repr, DecidableEq

/-- The `while True` pagination loop of fetch_emails (main.py lines
163-211), consuming the provider's successive page responses in order.
Returns the final `email_data` dict and the trace of loop actions:
an empty message list breaks before processing and before any sleep;
a missing next-page token breaks after processing, skipping the sleep. -/
def crawlLoop (detail : String → Except String MessageDetail)
    (existing : Finset String) (acc : List (String × EmailRecord)) :
    List PageResponse → List (String × EmailRecord) × List CrawlAction
  | [] => (acc, [])
  | page :: rest =>
    if page.messages.isEmpty then (acc, [])
    else
      let acc2 := processPage detail existing acc page.messages
      if page.nextPageToken then
        let r := crawlLoop detail existing acc2 rest
        (r.1, CrawlAction.processed page.messages :: CrawlAction.slept :: r.2)
      else (acc2, [CrawlAction.processed page.messages])

/-- Provider behaviour backing one tenant's crawl: the page responses the
listing endpoint returns and the per-id outcome of the detail fetch. -/
structure CrawlInput where
  pages : List PageResponse
  detail : String → Except String MessageDetail

/-- fetch_emails (main.py lines 147-217).  The whole body sits in one
try/except returning [] on any exception; the explicit
expired-token-without-refresh early return at line 155 also yields [].
Both are the Except.error case of the behaviour.  On success the result is
`list(email_data.values())`. -/
def fetchEmails (existing : Finset String)
    (behavior : Except String CrawlInput) : List EmailRecord :=
  match behavior with
  | Except.error _ => []
  | Except.ok inp =>
    ((crawlLoop inp.detail existing [] inp.pages).1).map (fun kv => kv.2)

/-- Outcome of one `insert_rows_json` call (main.py lines 242-250): it can
succeed with an empty error list, report row errors, or raise; the last two
are logged and the batch's rows are not counted. -/
inductive InsertOutcome where
  | ok
  | rowErrors
  | raised
deriving Repr, DecidableEq

/-- The batch loop of insert_into_bigquery (main.py lines 240-253), counting
`inserted += len(batch)` exactly for batches whose insert call returned no
errors.  The oracle gives the warehouse's outcome for the i-th batch.  Also
returns the list of batches actually attempted. -/
def insertLoop (outcome : Nat → InsertOutcome) :
    List (List EmailRecord) → Nat → Nat × List (List EmailRecord)
  | [], _ => (0, [])
  | b :: rest, i =>
    let r := insertLoop outcome rest (i + 1)
    ((if outcome i = InsertOutcome.ok then b.length else 0) + r.1, b :: r.2)

/-- insert_into_bigquery (main.py lines 231-254): empty input returns 0
immediately, otherwise the data is cut into BATCH_SIZE slices and each is
attempted independently. -/
def insertIntoBigQuery (BATCH_SIZE : Nat) (outcome : Nat → InsertOutcome)
    (email_data : List EmailRecord) : Nat × List (List EmailRecord) :=
  if email_data.isEmpty then (0, [])
  else insertLoop outcome (chunks BATCH_SIZE email_data) 0

/-- process_user_token (main.py lines 270-276): a missing token path
contributes 0, otherwise fetch then, if any emails came back, insert. -/
def processUserToken (BATCH_SIZE : Nat) (existing : Finset String)
    (token_path : Option String) (behavior : Except String CrawlInput)
    (outcome : Nat → InsertOutcome) : Nat :=
  match token_path with
  | none => 0
  | some _ =>
    let emails := fetchEmails existing behavior
    if emails.isEmpty then 0 else (insertIntoBigQuery BATCH_SIZE outcome emails).1

/-- Lookup in the memoisation dict of cache_with_timeout: the stored
(result, timestamp) pair for a key, if present. -/
def cacheLookup {α : Type} (cache : List (String × α × Int)) (k : String) :
    Option (α × Int) :=
  (cache.find? (fun e => e.1 == k)).map (fun e => e.2)

/-- One call through the wrapper of cache_with_timeout (main.py lines
57-64), with the closed-over dict passed explicitly and time.time() as an
Int parameter.  Returns the call's result, the dict afterwards, and whether
the wrapped function was executed (it runs at most once per call).  A hit
requires the key present and `now - stored_timestamp < timeout`. -/
def cacheCall {α : Type} (timeout : Int) (f : Unit → α)
    (cache : List (String × α × Int)) (k : String) (now : Int) :
    α × List (String × α × Int) × Bool :=
  match cacheLookup cache k with
  | some (r, ts) =>
    if now - ts < timeout then (r, cache, false)
    else
      let r2 := f ()
      (r2, pyDictInsert k (r2, now) cache, true)
  | none =>
    let r2 := f ()
    (r2, pyDictInsert k (r2, now) cache, true)

/-- Body of fetch_existing_email_ids (main.py lines 95-104), behind the
cache decorator: the warehouse query either yields the id set or raises,
and a raise is caught and degraded to the empty set. -/
def fetchExistingBody (qres : Except Unit (Finset String)) : Finset String :=
  match qres with
  | Except.ok s => s
  | Except.error _ => ∅

/-- What download_token does after the .json guard for a non-.json name
(main.py lines 127-145): `open(token_path, "wb")` creates the file before
anything can fail, then credential validation either fails (returns None,
file left behind) or succeeds (returns the path). -/
inductive TokenOutcome where
  | writeFail
  | okTok
deriving Repr, DecidableEq

/-- download_token's returned path (main.py lines 118-145): names ending in
".json" are skipped with None before any download; otherwise the outcome
oracle decides between None and the /tmp path. -/
def download_token (file_name : String) (oc : TokenOutcome) : Option String :=
  if pyEndsWith file_name ".json" then none
  else
    match oc with
    | TokenOutcome.writeFail => none
    | TokenOutcome.okTok => some ("/tmp/" ++ file_name)

/-- Whether download_token creates /tmp/file_name: it does for every
non-.json name, even when it then returns None, because the file is opened
for writing (main.py line 129) before validation can fail. -/
def tokenFileWritten (file_name : String) : Bool :=
  !(pyEndsWith file_name ".json")

/-- One Drive token artifact as run_fetch sees it, together with the
oracles for everything external that its processing touches. -/
structure TokenFile where
  name : String
  outcome : TokenOutcome
  behavior : Except String CrawlInput
  insertOutcome : Nat → InsertOutcome

/-- External outcomes of one /fetch run: whether the BigQuery key blob
download succeeds, whether client construction after it succeeds, and the
listed Drive token files.  A soft-failing Drive listing is the tokens = []
case (list_drive_tokens returns [] on error). -/
structure RunOracle where
  keyDownloadOk : Bool
  clientInitOk : Bool
  tokens : List TokenFile

/-- The three response shapes of the /fetch route. -/
inductive RunResponse where
  | success (total : Nat)
  | warning
  | error
deriving Repr, DecidableEq

/-- Path of the downloaded warehouse credential (main.py line 262). -/
def keyPath : String := "/tmp/bigquery-key.json"

/-- Local path a token file is downloaded to (main.py line 120). -/
def tokenPath (file_name : String) : String := "/tmp/" ++ file_name

/-- The /tmp files created by the download loop of run_fetch: one per
non-.json token name. -/
def writtenPaths (tokens : List TokenFile) : List String :=
  (tokens.filter (fun tf => tokenFileWritten tf.name)).map (fun tf => tokenPath tf.name)

/-- The tokens for which download_token returns a path; exactly these land
in run_fetch's token_paths list (main.py lines 293-297). -/
def procTokens (tokens : List TokenFile) : List TokenFile :=
  tokens.filter (fun tf => (download_token tf.name tf.outcome).isSome)

/-- The token_paths list of run_fetch. -/
def procPaths (tokens : List TokenFile) : List String :=
  (procTokens tokens).map (fun tf => tokenPath tf.name)

/-- The count one submitted tenant task returns: process_user_token applied
to the token's downloaded path. -/
def taskCount (BATCH_SIZE : Nat) (existing : Finset String) (tf : TokenFile) : Nat :=
  processUserToken BATCH_SIZE existing (download_token tf.name tf.outcome)
    tf.behavior tf.insertOutcome

/-- The aggregate `total_inserted` of run_fetch (main.py lines 299-303):
the sum of the tenant tasks' results over token_paths. -/
def runTotal (BATCH_SIZE : Nat) (existing : Finset String)
    (tokens : List TokenFile) : Nat :=
  ((procTokens tokens).map (taskCount BATCH_SIZE existing)).sum

/-- run_fetch (main.py lines 280-322) with the local filesystem state made
explicit: returns the HTTP response shape and the list of /tmp files left
behind.  The route-level try/except returns the error response on the
bootstrap failure paths without running the cleanup block; the
no-tokens warning path also returns before cleanup; only the success path
reaches the cleanup loop (lines 305-314), which removes token_paths and the
key file, swallowing removal failures. -/
def runFetchFS (BATCH_SIZE : Nat) (existing : Finset String)
    (o : RunOracle) : RunResponse × List String :=
  if !o.keyDownloadOk then (RunResponse.error, [])
  else if !o.clientInitOk then (RunResponse.error, [keyPath])
  else if o.tokens.isEmpty then (RunResponse.warning, [keyPath])
  else
    let files1 := keyPath :: writtenPaths o.tokens
    let total := runTotal BATCH_SIZE existing o.tokens
    let files2 := (procPaths o.tokens).foldl (fun fs p => fs.erase p) files1
    (RunResponse.success total, files2.erase keyPath)

/-- The email sanitisation of the uploader tool (app.py line 45):
`user_email.replace("@", "_").replace(".", "_")`. -/
def sanitizeUserEmail (user_email : String) : String :=
  (user_email.replace "@" "_").replace "." "_"

/-- The artifact name the uploader tool saves and uploads (app.py line 48):
`f"user_token_{user_email}.json"`. -/
def token_filename (user_email : String) : String :=
  "user_token_" ++ sanitizeUserEmail user_email ++ ".json"

theorem insertLoop_batches (oc : Nat → InsertOutcome) :
    ∀ (bs : List (List EmailRecord)) (i : Nat), (insertLoop oc bs i).2 = bs := by
  intro bs
  induction bs with
  | nil => intro i; rfl
  | cons b rest ih =>
    intro i
    simp [insertLoop, ih (i + 1)]

theorem insertLoop_sum (oc : Nat → InsertOutcome) :
    ∀ (bs : List (List EmailRecord)) (i : Nat),
      (insertLoop oc bs i).1 =
        ((List.enumFrom i bs).map
          (fun p => if oc p.1 = InsertOutcome.ok then p.2.length else 0)).sum := by
  intro bs
  induction bs with
  | nil => intro i; rfl
  | cons b rest ih =>
    intro i
    simp [insertLoop, List.enumFrom_cons, ih (i + 1)]

/-- Claim C5: for every record list and nonzero maximum batch size M, the
batch loader's slicing is exactly what insert_into_bigquery attempts, and
it yields ceil(L/M) contiguous, order-preserving batches, each of at most M
records, the last of size L mod M (or M when M divides L). -/
theorem batch_partition_spec (M : Nat) (hM : M ≠ 0) (oc : Nat → InsertOutcome)
    (data : List EmailRecord) :
    (insertIntoBigQuery M oc data).2 = chunks M data ∧
    (chunks M data).length = (data.length + M - 1) / M ∧
    (∀ b ∈ chunks M data, b.length ≤ M) ∧
    (chunks M data).flatten = data ∧
    (data ≠ [] → ∃ b, (chunks M data).getLast? = some b ∧
      b.length = if data.length % M = 0 then M else data.length % M) := by
  refine ⟨?_, chunks_length hM data, chunks_sizes M data, chunks_flatten hM data,
    fun hd => chunks_getLast hM hd⟩
  by_cases h : data = []
  · subst h
    simp [insertIntoBigQuery, chunks_nil]
  · rw [insertIntoBigQuery, if_neg (by simp [List.isEmpty_eq_false.mpr h])]
    exact insertLoop_batches oc (chunks M data) 0

theorem batch_partition_spec_witness :
    (chunks 2 [(⟨"m1", "", none, none, none, none, ""⟩ : EmailRecord),
               ⟨"m2", "", none, none, none, none, ""⟩,
               ⟨"m3", "", none, none, none, none, ""⟩]).length
      = ([(⟨"m1", "", none, none, none, none, ""⟩ : EmailRecord),
          ⟨"m2", "", none, none, none, none, ""⟩,
          ⟨"m3", "", none, none, none, none, ""⟩].length + 2 - 1) / 2 :=
  (batch_partition_spec 2 (by decide) (fun _ => InsertOutcome.ok) _).2.1

/-- Claim C7: the loader attempts every BATCH_SIZE slice of its input, and
the returned count is the sum of the sizes of exactly those batches whose
insert call came back with no errors; batches that raised or reported row
errors contribute nothing, and later batches are still attempted. -/
theorem insert_failure_containment (M : Nat) (oc : Nat → InsertOutcome)
    (data : List EmailRecord) :
    (insertIntoBigQuery M oc data).2 = chunks M data ∧
    (insertIntoBigQuery M oc data).1 =
      ((chunks M data).enum.map
        (fun p => if oc p.1 = InsertOutcome.ok then p.2.length else 0)).sum := by
  by_cases h : data = []
  · subst h
    simp [insertIntoBigQuery, chunks_nil]
  · rw [insertIntoBigQuery, if_neg (by simp [List.isEmpty_eq_false.mpr h])]
    exact ⟨insertLoop_batches oc (chunks M data) 0, by
      rw [insertLoop_sum oc (chunks M data) 0, List.enum_eq_enumFrom]⟩

theorem cacheLookup_cons {α : Type} (k0 k : String) (e : α × Int)
    (c : List (String × α × Int)) :
    cacheLookup ((k0, e) :: c) k = if k0 == k then some e else cacheLookup c k := by
  unfold cacheLookup
  rw [List.find?_cons]
  cases hbe : (k0 == k) <;> simp [hbe]

theorem cacheLookup_pyDictInsert_self {α : Type} (k : String) (v : α × Int) :
    ∀ c : List (String × α × Int), cacheLookup (pyDictInsert k v c) k = some v := by
  intro c
  induction c with
  | nil => simp [pyDictInsert, cacheLookup]
  | cons kv rest ih =>
    match kv with
    | (k0, e0) =>
      by_cases h : k0 = k
      · subst h
        rw [pyDictInsert, if_pos rfl, cacheLookup_cons]
        simp
      · rw [pyDictInsert, if_neg h, cacheLookup_cons,
          if_neg (by simp [beq_eq_false_iff_ne.mpr h]), ih]

/-- Claim C6 (amended): when the first of two calls with identical
arguments is the one that executes the warehouse query (a cache miss at
time t0), a second call less than the TTL after t0 returns the very same
cached result without executing the query; a call made at or after
t0 + TTL executes exactly one new query and re-stores.  The TTL window is
anchored at the timestamp stored with the entry, not at the previous
call. -/
theorem cache_ttl_behavior {α : Type} (T : Int) (f1 f2 f3 : Unit → α)
    (c : List (String × α × Int)) (k : String) (t0 t1 t2 : Int)
    (hmiss : cacheLookup c k = none) (h1 : t1 - t0 < T) (h2 : T ≤ t2 - t0) :
    cacheCall T f1 c k t0 = (f1 (), pyDictInsert k (f1 (), t0) c, true) ∧
    cacheCall T f2 (pyDictInsert k (f1 (), t0) c) k t1
      = (f1 (), pyDictInsert k (f1 (), t0) c, false) ∧
    cacheCall T f3 (pyDictInsert k (f1 (), t0) c) k t2
      = (f3 (), pyDictInsert k (f3 (), t2) (pyDictInsert k (f1 (), t0) c), true) := by
  refine ⟨?_, ?_, ?_⟩
  · unfold cacheCall
    rw [hmiss]
  · unfold cacheCall
    rw [cacheLookup_pyDictInsert_self]
    simp only [if_pos h1]
  · unfold cacheCall
    rw [cacheLookup_pyDictInsert_self]
    simp only [if_neg (not_lt.mpr h2)]

theorem cache_ttl_behavior_witness :
    cacheCall (3600 : Int) (fun _ => (1 : Nat)) [] "k" 0
      = (1, pyDictInsert "k" (1, 0) [], true) ∧
    cacheCall (3600 : Int) (fun _ => (2 : Nat)) (pyDictInsert "k" (1, 0) []) "k" 5
      = (1, pyDictInsert "k" (1, 0) [], false) ∧
    cacheCall (3600 : Int) (fun _ => (3 : Nat)) (pyDictInsert "k" (1, 0) []) "k" 3600
      = (3, pyDictInsert "k" (3, 3600) (pyDictInsert "k" (1, 0) []), true) :=
  cache_ttl_behavior 3600 _ _ _ [] "k" 0 5 3600 rfl (by decide) (by decide)

/-- Claim C6, as stated, is false: two calls separated by less than the TTL
can still trigger a second warehouse query when the cached entry is older
than the TTL.  Entry stored at time 0, TTL 10: a call at time 9 hits the
cache, a call at time 11 - only 2 seconds later - re-queries and can return
a different set. -/
theorem cache_ttl_counterexample :
    ((11 : Int) - 9 < 10) ∧
    cacheCall 10 (fun _ => fetchExistingBody (Except.ok {"m1"}))
      [("k", (({"m1"} : Finset String), (0 : Int)))] "k" 9
      = ({"m1"}, [("k", ({"m1"}, 0))], false) ∧
    (cacheCall 10 (fun _ => fetchExistingBody (Except.error ()))
      [("k", (({"m1"} : Finset String), (0 : Int)))] "k" 11).2.2 = true ∧
    (cacheCall 10 (fun _ => fetchExistingBody (Except.error ()))
      [("k", (({"m1"} : Finset String), (0 : Int)))] "k" 11).1 ≠ {"m1"} := by
  refine ⟨by decide, ?_, ?_, ?_⟩
  · rfl
  · rfl
  · decide

/-- Claim C10: when the existence query fails, the empty set it degrades to
is stored in the cache under the call's key, so any later call with the
same key within the TTL returns that empty set without re-querying, even
if the warehouse would now answer (q2 arbitrary). -/
theorem failed_query_cached (T : Int) (c : List (String × Finset String × Int))
    (k : String) (t0 t1 : Int) (q2 : Except Unit (Finset String))
    (hmiss : cacheLookup c k = none) (hT : t1 - t0 < T) :
    cacheCall T (fun _ => fetchExistingBody (Except.error ())) c k t0
      = (∅, pyDictInsert k (∅, t0) c, true) ∧
    cacheCall T (fun _ => fetchExistingBody q2) (pyDictInsert k (∅, t0) c) k t1
      = (∅, pyDictInsert k (∅, t0) c, false) := by
  constructor
  · unfold cacheCall
    rw [hmiss]
    rfl
  · unfold cacheCall
    rw [cacheLookup_pyDictInsert_self]
    simp only [if_pos hT]

theorem failed_query_cached_witness :
    cacheCall (3600 : Int) (fun _ => fetchExistingBody (Except.error ())) [] "k" 0
      = (∅, pyDictInsert "k" (∅, 0) [], true) ∧
    cacheCall (3600 : Int) (fun _ => fetchExistingBody (Except.ok {"m1"}))
      (pyDictInsert "k" (∅, 0) []) "k" 5
      = (∅, pyDictInsert "k" (∅, 0) [], false) :=
  failed_query_cached 3600 [] "k" 0 5 (Except.ok {"m1"}) rfl (by decide)

theorem crawlLoop_trace_le (detail : String → Except String MessageDetail)
    (existing : Finset String) :
    ∀ (pages : List PageResponse) (acc : List (String × EmailRecord)),
      (crawlLoop detail existing acc pages).2.length ≤ 2 * pages.length := by
  intro pages
  induction pages with
  | nil => intro acc; simp [crawlLoop]
  | cons p rest ih =>
    intro acc
    by_cases hm : p.messages.isEmpty
    · simp [crawlLoop, hm]
    · cases ht : p.nextPageToken
      · simp [crawlLoop, hm, ht]
        omega
      · simp only [crawlLoop, hm, ht, if_true, List.length_cons]
        have h3 := ih (processPage detail existing acc p.messages)
        simp only [Bool.false_eq_true, if_false]
        simp only [List.length_cons]
        omega

/-- Claim C8: the crawl loop terminates on every finite sequence of
provider pages (its action trace is bounded by the pages supplied); a page
without a next-page token ends the crawl right after that page, exactly as
if it were the only remaining page, with no pacing sleep; and a page with
an empty message list ends the crawl immediately, unprocessed and without
a sleep. -/
theorem pagination_termination (detail : String → Except String MessageDetail)
    (existing : Finset String) (acc : List (String × EmailRecord))
    (p : PageResponse) (rest pages : List PageResponse) :
    (p.messages = [] → crawlLoop detail existing acc (p :: rest) = (acc, [])) ∧
    (p.nextPageToken = false →
      crawlLoop detail existing acc (p :: rest) = crawlLoop detail existing acc [p] ∧
      CrawlAction.slept ∉ (crawlLoop detail existing acc (p :: rest)).2) ∧
    (crawlLoop detail existing acc pages).2.length ≤ 2 * pages.length := by
  refine ⟨?_, ?_, crawlLoop_trace_le detail existing pages acc⟩
  · intro hm
    simp [crawlLoop, List.isEmpty_iff.mpr hm]
  · intro ht
    by_cases hm : p.messages.isEmpty
    · constructor
      · simp [crawlLoop, hm]
      · simp [crawlLoop, hm]
    · constructor
      · simp [crawlLoop, hm, ht]
      · simp [crawlLoop, hm, ht]

theorem pagination_termination_witness :
    crawlLoop (fun _ => Except.error "e") ∅ []
      [⟨[], true⟩, ⟨["x"], true⟩] = ([], []) :=
  (pagination_termination (fun _ => Except.error "e") ∅ [] ⟨[], true⟩
    [⟨["x"], true⟩] []).1 rfl

theorem pyEndsWith_append (s t : String) : pyEndsWith (s ++ t) t = true := by
  unfold pyEndsWith
  rw [List.isSuffixOf_iff_suffix, String.data_append]
  exact List.suffix_append s.data t.data

theorem writtenPaths_append (a b : List TokenFile) :
    writtenPaths (a ++ b) = writtenPaths a ++ writtenPaths b := by
  simp [writtenPaths, List.filter_append]

theorem procTokens_append (a b : List TokenFile) :
    procTokens (a ++ b) = procTokens a ++ procTokens b := by
  simp [procTokens, List.filter_append]

theorem runTotal_append (M : Nat) (ex : Finset String) (a b : List TokenFile) :
    runTotal M ex (a ++ b) = runTotal M ex a + runTotal M ex b := by
  simp [runTotal, procTokens_append]

theorem runTotal_cons_keep (M : Nat) (ex : Finset String) (t : TokenFile)
    (ts : List TokenFile) (ht : (download_token t.name t.outcome).isSome = true) :
    runTotal M ex (t :: ts) = taskCount M ex t + runTotal M ex ts := by
  simp [runTotal, procTokens, ht]

/-- Claim C3: every artifact the authorisation/upload tool produces is
named user_token_<sanitised email>.json, which ends in ".json"; the ETL
service's download_token returns None for every such name, so a tenant
onboarded through the tool is never placed in token_paths and a run behaves
exactly as if the token were absent (same response, same leftover files),
provided some other token exists (with no other token the run takes the
no-tokens warning exit instead of the success exit with total 0). -/
theorem uploader_tokens_skipped (email : String) (oc : TokenOutcome)
    (M : Nat) (ex : Finset String) (kOk cOk : Bool) (pre post : List TokenFile)
    (tf : TokenFile) (hname : tf.name = token_filename email)
    (hne : pre ++ post ≠ []) :
    pyEndsWith (token_filename email) ".json" = true ∧
    download_token (token_filename email) oc = none ∧
    runFetchFS M ex ⟨kOk, cOk, pre ++ tf :: post⟩
      = runFetchFS M ex ⟨kOk, cOk, pre ++ post⟩ := by
  have hjson : pyEndsWith (token_filename email) ".json" = true := by
    unfold token_filename
    exact pyEndsWith_append _ _
  have hjson2 : pyEndsWith tf.name ".json" = true := by rw [hname]; exact hjson
  have hdl : ∀ oc2, download_token tf.name oc2 = none := by
    intro oc2
    unfold download_token
    rw [if_pos hjson2]
  refine ⟨hjson, by unfold download_token; rw [if_pos (by rw [hname] at hjson2; exact hjson2)], ?_⟩
  have hw : writtenPaths (pre ++ tf :: post) = writtenPaths (pre ++ post) := by
    rw [writtenPaths_append, writtenPaths_append]
    have : writtenPaths (tf :: post) = writtenPaths post := by
      simp [writtenPaths, tokenFileWritten, hjson2]
    rw [this]
  have hp : procTokens (pre ++ tf :: post) = procTokens (pre ++ post) := by
    rw [procTokens_append, procTokens_append]
    have : procTokens (tf :: post) = procTokens post := by
      simp [procTokens, hdl tf.outcome]
    rw [this]
  cases kOk with
  | false => rfl
  | true =>
    cases cOk with
    | false => rfl
    | true =>
      have h1 : (pre ++ tf :: post).isEmpty = false :=
        List.isEmpty_eq_false.mpr
          (List.append_ne_nil_of_right_ne_nil pre (List.cons_ne_nil tf post))
      have h2 : (pre ++ post).isEmpty = false := List.isEmpty_eq_false.mpr hne
      simp only [runFetchFS, h1, h2, runTotal, procPaths, hw, hp,
        Bool.not_true, Bool.false_eq_true, if_false]

theorem uploader_tokens_skipped_witness :
    pyEndsWith (token_filename "a@b.c") ".json" = true ∧
    download_token (token_filename "a@b.c") TokenOutcome.okTok = none ∧
    runFetchFS 5 ∅ ⟨true, true,
        [⟨"tokA", TokenOutcome.okTok, Except.error "x", fun _ => InsertOutcome.ok⟩,
         ⟨token_filename "a@b.c", TokenOutcome.okTok, Except.error "y",
           fun _ => InsertOutcome.ok⟩]⟩
      = runFetchFS 5 ∅ ⟨true, true,
        [⟨"tokA", TokenOutcome.okTok, Except.error "x", fun _ => InsertOutcome.ok⟩]⟩ :=
  uploader_tokens_skipped "a@b.c" TokenOutcome.okTok 5 ∅ true true
    [⟨"tokA", TokenOutcome.okTok, Except.error "x", fun _ => InsertOutcome.ok⟩] []
    ⟨token_filename "a@b.c", TokenOutcome.okTok, Except.error "y",
      fun _ => InsertOutcome.ok⟩ rfl (by simp)

/-- Claim C1: a tenant whose crawl raises anywhere (the whole fetch_emails
body is one try/except returning []) contributes 0; the run still reaches
its success response - no exception crosses the tenant-task boundary - and
the aggregate total is the sum of the remaining tenants' counts; every
sibling token, before and after the failing one, is still processed and
contributes its own count. -/
theorem tenant_failure_isolation (M : Nat) (ex : Finset String)
    (pre post : List TokenFile) (t : TokenFile) (e : String)
    (hb : t.behavior = Except.error e)
    (ht : (download_token t.name t.outcome).isSome = true) :
    taskCount M ex t = 0 ∧
    (runFetchFS M ex ⟨true, true, pre ++ t :: post⟩).1
      = RunResponse.success (runTotal M ex pre + runTotal M ex post) := by
  have h0 : taskCount M ex t = 0 := by
    obtain ⟨p, hp⟩ := Option.isSome_iff_exists.mp ht
    simp [taskCount, processUserToken, hp, fetchEmails, hb]
  refine ⟨h0, ?_⟩
  have h1 : (pre ++ t :: post).isEmpty = false :=
    List.isEmpty_eq_false.mpr
      (List.append_ne_nil_of_right_ne_nil pre (List.cons_ne_nil t post))
  simp only [runFetchFS, h1, Bool.not_true, Bool.false_eq_true, if_false]
  rw [runTotal_append, runTotal_cons_keep M ex t post ht, h0, Nat.zero_add]

theorem tenant_failure_isolation_witness :
    taskCount 5 ∅ ⟨"tokB", TokenOutcome.okTok, Except.error "boom",
        fun _ => InsertOutcome.ok⟩ = 0 ∧
    (runFetchFS 5 ∅ ⟨true, true,
        [⟨"tokA", TokenOutcome.okTok,
           Except.ok ⟨[], fun _ => Except.error ""⟩, fun _ => InsertOutcome.ok⟩,
         ⟨"tokB", TokenOutcome.okTok, Except.error "boom",
           fun _ => InsertOutcome.ok⟩]⟩).1
      = RunResponse.success
          (runTotal 5 ∅ [⟨"tokA", TokenOutcome.okTok,
              Except.ok ⟨[], fun _ => Except.error ""⟩, fun _ => InsertOutcome.ok⟩]
            + runTotal 5 ∅ []) :=
  tenant_failure_isolation 5 ∅
    [⟨"tokA", TokenOutcome.okTok,
       Except.ok ⟨[], fun _ => Except.error ""⟩, fun _ => InsertOutcome.ok⟩] []
    ⟨"tokB", TokenOutcome.okTok, Except.error "boom", fun _ => InsertOutcome.ok⟩
    "boom" rfl rfl

theorem mem_pyDictInsert {β : Type} (k : String) (v : β) :
    ∀ (l : List (String × β)) (kv : String × β),
      kv ∈ pyDictInsert k v l → kv = (k, v) ∨ kv ∈ l := by
  intro l
  induction l with
  | nil =>
    intro kv h
    simp [pyDictInsert] at h
    left
    exact h
  | cons kv0 rest ih =>
    obtain ⟨k0, v0⟩ := kv0
    intro kv h
    by_cases he : k0 = k
    · rw [pyDictInsert, if_pos he] at h
      rcases List.mem_cons.mp h with h | h
      · left; exact h
      · right; exact List.mem_cons_of_mem _ h
    · rw [pyDictInsert, if_neg he] at h
      rcases List.mem_cons.mp h with h | h
      · right; rw [h]; exact List.mem_cons_self _ _
      · rcases ih kv h with h | h
        · left; exact h
        · right; exact List.mem_cons_of_mem _ h

theorem keys_pyDictInsert {β : Type} (k : String) (v : β)
    (l : List (String × β)) (x : String)
    (hx : x ∈ (pyDictInsert k v l).map Prod.fst) :
    x = k ∨ x ∈ l.map Prod.fst := by
  rcases List.mem_map.mp hx with ⟨kv, hkv, hfst⟩
  rcases mem_pyDictInsert k v l kv hkv with h | h
  · left; rw [← hfst, h]
  · right; exact hfst ▸ List.mem_map_of_mem Prod.fst h

theorem nodup_keys_pyDictInsert {β : Type} (k : String) (v : β) :
    ∀ l : List (String × β),
      (l.map Prod.fst).Nodup → ((pyDictInsert k v l).map Prod.fst).Nodup := by
  intro l
  induction l with
  | nil =>
    intro _
    simp [pyDictInsert]
  | cons kv0 rest ih =>
    obtain ⟨k0, v0⟩ := kv0
    intro hnd
    simp only [List.map_cons, List.nodup_cons] at hnd
    by_cases he : k0 = k
    · rw [pyDictInsert, if_pos he]
      simp only [List.map_cons, List.nodup_cons]
      exact ⟨he ▸ hnd.1, hnd.2⟩
    · rw [pyDictInsert, if_neg he]
      simp only [List.map_cons, List.nodup_cons]
      refine ⟨?_, ih hnd.2⟩
      intro hx
      rcases keys_pyDictInsert k v rest k0 hx with h | h
      · exact he h
      · exact hnd.1 h

theorem processBatch_mem (d : String → Except String MessageDetail) :
    ∀ (ids : List String) (acc : List (String × EmailRecord))
      (kv : String × EmailRecord),
      kv ∈ processBatch d acc ids → kv ∈ acc ∨ (kv.1 ∈ ids ∧ kv.2.id = kv.1) := by
  intro ids
  induction ids with
  | nil =>
    intro acc kv h
    left
    exact h
  | cons i rest ih =>
    intro acc kv h
    cases hd : d i with
    | error e =>
      simp only [processBatch, hd] at h
      rcases ih acc kv h with h | h
      · left; exact h
      · right; exact ⟨List.mem_cons_of_mem i h.1, h.2⟩
    | ok resp =>
      simp only [processBatch, hd] at h
      rcases ih _ kv h with h | h
      · rcases mem_pyDictInsert _ _ acc kv h with h | h
        · right
          rw [h]
          exact ⟨List.mem_cons_self i rest, rfl⟩
        · left; exact h
      · right; exact ⟨List.mem_cons_of_mem i h.1, h.2⟩

theorem processBatch_nodup (d : String → Except String MessageDetail) :
    ∀ (ids : List String) (acc : List (String × EmailRecord)),
      (acc.map Prod.fst).Nodup → ((processBatch d acc ids).map Prod.fst).Nodup := by
  intro ids
  induction ids with
  | nil => intro acc h; exact h
  | cons i rest ih =>
    intro acc h
    cases hd : d i with
    | error e =>
      simp only [processBatch, hd]
      exact ih acc h
    | ok resp =>
      simp only [processBatch, hd]
      exact ih _ (nodup_keys_pyDictInsert _ _ acc h)

theorem foldl_processBatch_mem (d : String → Except String MessageDetail) :
    ∀ (bs : List (List String)) (acc : List (String × EmailRecord))
      (kv : String × EmailRecord),
      kv ∈ bs.foldl (processBatch d) acc →
        kv ∈ acc ∨ ∃ b ∈ bs, kv.1 ∈ b ∧ kv.2.id = kv.1 := by
  intro bs
  induction bs with
  | nil => intro acc kv h; left; exact h
  | cons b rest ih =>
    intro acc kv h
    rw [List.foldl_cons] at h
    rcases ih _ kv h with h1 | ⟨b2, hb2, hx⟩
    · rcases processBatch_mem d b acc kv h1 with h2 | h2
      · left; exact h2
      · right; exact ⟨b, List.mem_cons_self b rest, h2⟩
    · right; exact ⟨b2, List.mem_cons_of_mem b hb2, hx⟩

theorem foldl_processBatch_nodup (d : String → Except String MessageDetail) :
    ∀ (bs : List (List String)) (acc : List (String × EmailRecord)),
      (acc.map Prod.fst).Nodup →
        ((bs.foldl (processBatch d) acc).map Prod.fst).Nodup := by
  intro bs
  induction bs with
  | nil => intro acc h; exact h
  | cons b rest ih =>
    intro acc h
    rw [List.foldl_cons]
    exact ih _ (processBatch_nodup d b acc h)

theorem newIds_not_mem (ex : Finset String) (msgs : List String) (x : String)
    (h : x ∈ newIds ex msgs) : x ∉ ex :=
  of_decide_eq_true (List.mem_filter.mp h).2

theorem processPage_mem (d : String → Except String MessageDetail)
    (ex : Finset String) (acc : List (String × EmailRecord))
    (msgs : List String) (kv : String × EmailRecord)
    (h : kv ∈ processPage d ex acc msgs) :
    kv ∈ acc ∨ (kv.1 ∈ newIds ex msgs ∧ kv.2.id = kv.1) := by
  rcases foldl_processBatch_mem d (subBatches (newIds ex msgs)) acc kv h with
    h1 | ⟨b, hb, hx, hid⟩
  · left; exact h1
  · right; exact ⟨chunks_subset 50 _ b hb kv.1 hx, hid⟩

theorem crawlLoop_mem (d : String → Except String MessageDetail)
    (ex : Finset String) :
    ∀ (pages : List PageResponse) (acc : List (String × EmailRecord))
      (kv : String × EmailRecord),
      kv ∈ (crawlLoop d ex acc pages).1 →
        kv ∈ acc ∨ (kv.1 ∉ ex ∧ kv.2.id = kv.1) := by
  intro pages
  induction pages with
  | nil => intro acc kv h; left; exact h
  | cons p rest ih =>
    intro acc kv h
    by_cases hm : p.messages.isEmpty
    · simp only [crawlLoop, hm, if_true] at h
      left; exact h
    · cases htk : p.nextPageToken
      · simp only [crawlLoop, hm, htk, Bool.false_eq_true, if_false] at h
        rcases processPage_mem d ex acc p.messages kv h with h | h
        · left; exact h
        · right; exact ⟨newIds_not_mem ex p.messages kv.1 h.1, h.2⟩
      · simp only [crawlLoop, hm, htk, if_true, Bool.false_eq_true, if_false] at h
        rcases ih _ kv h with h | h
        · rcases processPage_mem d ex acc p.messages kv h with h | h
          · left; exact h
          · right; exact ⟨newIds_not_mem ex p.messages kv.1 h.1, h.2⟩
        · right; exact h

theorem crawlLoop_nodup (d : String → Except String MessageDetail)
    (ex : Finset String) :
    ∀ (pages : List PageResponse) (acc : List (String × EmailRecord)),
      (acc.map Prod.fst).Nodup →
        (((crawlLoop d ex acc pages).1).map Prod.fst).Nodup := by
  intro pages
  induction pages with
  | nil => intro acc h; exact h
  | cons p rest ih =>
    intro acc h
    by_cases hm : p.messages.isEmpty
    · simp only [crawlLoop, hm, if_true]
      exact h
    · cases htk : p.nextPageToken
      · simp only [crawlLoop, hm, htk, Bool.false_eq_true, if_false]
        exact foldl_processBatch_nodup d _ acc h
      · simp only [crawlLoop, hm, htk, if_true, Bool.false_eq_true, if_false]
        exact ih _ (foldl_processBatch_nodup d _ acc h)

/-- Claim C9: one tenant's crawl never returns two records with the same
identifier - email_data is a dict keyed by the message id and every stored
record carries its key as its id field - even when the provider lists the
same id on several pages. -/
theorem crawl_ids_nodup (ex : Finset String) (bh : Except String CrawlInput) :
    ((fetchEmails ex bh).map EmailRecord.id).Nodup := by
  cases bh with
  | error e => simp [fetchEmails]
  | ok inp =>
    simp only [fetchEmails, List.map_map]
    have hcong : ∀ kv ∈ (crawlLoop inp.detail ex [] inp.pages).1,
        (EmailRecord.id ∘ fun kv => kv.2) kv = Prod.fst kv := by
      intro kv hkv
      rcases crawlLoop_mem inp.detail ex inp.pages [] kv hkv with h | h
      · exact absurd h (List.not_mem_nil kv)
      · exact h.2
    rw [List.map_congr_left hcong]
    exact crawlLoop_nodup inp.detail ex inp.pages [] (by simp)

/-- Claim C4: an id X already in the existing-identifier set is filtered
from every page listing before the detail fetch - it appears in no
detail-fetch sub-batch - and no record with id X ever appears in the
crawl's output. -/
theorem dedup_before_detail (ex : Finset String) (X : String) (hX : X ∈ ex) :
    (∀ msgs, X ∉ newIds ex msgs) ∧
    (∀ msgs b, b ∈ subBatches (newIds ex msgs) → X ∉ b) ∧
    (∀ bh r, r ∈ fetchEmails ex bh → r.id ≠ X) := by
  have h1 : ∀ msgs, X ∉ newIds ex msgs := fun msgs h =>
    (newIds_not_mem ex msgs X h) hX
  refine ⟨h1, ?_, ?_⟩
  · intro msgs b hb hXb
    exact h1 msgs (chunks_subset 50 _ b hb X hXb)
  · intro bh r hr
    cases bh with
    | error e => exact absurd hr (by simp [fetchEmails])
    | ok inp =>
      simp only [fetchEmails] at hr
      rcases List.mem_map.mp hr with ⟨kv, hkv, hr2⟩
      rcases crawlLoop_mem inp.detail ex inp.pages [] kv hkv with h | h
      · exact absurd h (List.not_mem_nil kv)
      · intro he
        apply h.1
        rw [← h.2, hr2, he]
        exact hX

theorem dedup_before_detail_witness :
    "x" ∉ newIds {"x"} ["x", "y"] :=
  (dedup_before_detail {"x"} "x" (by simp)).1 ["x", "y"]

theorem foldl_erase_eq_filter {α : Type} [DecidableEq α] :
    ∀ (ps acc : List α), acc.Nodup →
      ps.foldl (fun fs p => fs.erase p) acc
        = acc.filter (fun x => decide (x ∉ ps)) := by
  intro ps
  induction ps with
  | nil =>
    intro acc h
    simp
  | cons p ps ih =>
    intro acc h
    rw [List.foldl_cons, ih _ (h.erase p), List.Nodup.erase_eq_filter h p,
      List.filter_filter]
    apply List.filter_congr
    intro x hx
    by_cases hp : x = p <;> by_cases hps : x ∈ ps <;>
      simp [hp, hps, List.mem_cons]

theorem download_token_isSome (file_name : String) (oc : TokenOutcome) :
    (download_token file_name oc).isSome
      = (decide (oc = TokenOutcome.okTok) && tokenFileWritten file_name) := by
  unfold download_token tokenFileWritten
  cases hj : pyEndsWith file_name ".json" <;> cases oc <;> simp [hj]

theorem procTokens_eq_filter (ts : List TokenFile) :
    procTokens ts = (ts.filter (fun tf => tokenFileWritten tf.name)).filter
      (fun tf => decide (tf.outcome = TokenOutcome.okTok)) := by
  unfold procTokens
  rw [List.filter_filter]
  apply List.filter_congr
  intro tf _
  exact download_token_isSome tf.name tf.outcome

theorem procPaths_subset_writtenPaths (ts : List TokenFile) :
    ∀ x ∈ procPaths ts, x ∈ writtenPaths ts := by
  intro x hx
  rcases List.mem_map.mp hx with ⟨tf, htf, hpath⟩
  rw [procTokens_eq_filter] at htf
  have h2 := List.mem_filter.mp htf
  rw [← hpath]
  exact List.mem_map_of_mem _ h2.1

theorem filter_writeFail_aux :
    ∀ wr : List TokenFile,
      ((wr.map (fun tf => tokenPath tf.name)).Nodup) →
      wr.filter (fun tf => decide (tokenPath tf.name ∉
          (wr.filter (fun t2 => decide (t2.outcome = TokenOutcome.okTok))).map
            (fun t2 => tokenPath t2.name)))
        = wr.filter (fun tf => decide (tf.outcome = TokenOutcome.writeFail)) := by
  intro wr
  induction wr with
  | nil => intro _; rfl
  | cons w rest ih =>
    intro hnd
    simp only [List.map_cons, List.nodup_cons] at hnd
    obtain ⟨hw, hndr⟩ := hnd
    have hne : ∀ x ∈ rest, tokenPath x.name ≠ tokenPath w.name := by
      intro x hx heq
      exact hw (heq ▸ List.mem_map_of_mem _ hx)
    cases how : w.outcome with
    | okTok =>
      have hproc : (w :: rest).filter (fun t2 => decide (t2.outcome = TokenOutcome.okTok))
          = w :: rest.filter (fun t2 => decide (t2.outcome = TokenOutcome.okTok)) :=
        List.filter_cons_of_pos (by simp [how])
      rw [hproc,
        List.filter_cons_of_neg (by
          simp only [List.map_cons]
          rw [decide_eq_false (not_not_intro (List.mem_cons_self _ _))]
          simp),
        List.filter_cons_of_neg (by simp [how]),
        List.filter_congr (fun x hx => decide_eq_decide.mpr (by
          simp only [List.map_cons, List.mem_cons]
          constructor
          · intro hcon
            exact fun hmem => hcon (Or.inr hmem)
          · intro hnmem hcon
            rcases hcon with hcon | hcon
            · exact hne x hx hcon
            · exact hnmem hcon))]
      exact ih hndr
    | writeFail =>
      have hproc : (w :: rest).filter (fun t2 => decide (t2.outcome = TokenOutcome.okTok))
          = rest.filter (fun t2 => decide (t2.outcome = TokenOutcome.okTok)) :=
        List.filter_cons_of_neg (by simp [how])
      have hhead : decide (tokenPath w.name ∉
          (rest.filter (fun t2 => decide (t2.outcome = TokenOutcome.okTok))).map
            (fun t2 => tokenPath t2.name)) = true := decide_eq_true (by
        intro hmem
        rcases List.mem_map.mp hmem with ⟨t2, ht2, hp2⟩
        exact hne t2 (List.mem_of_mem_filter ht2) hp2)
      rw [hproc,
        @List.filter_cons_of_pos _
          (fun tf => decide (tokenPath tf.name ∉
            (rest.filter (fun t2 => decide (t2.outcome = TokenOutcome.okTok))).map
              (fun t2 => tokenPath t2.name))) w rest hhead,
        @List.filter_cons_of_pos _
          (fun tf => decide (tf.outcome = TokenOutcome.writeFail)) w rest
          (by simp [how])]
      rw [ih hndr]

/-- Claim C2, as stated, is false on the code: cleanup only runs at the end
of the success path.  Concrete run: the warehouse key downloads fine and the
clients come up, but the Drive folder lists no tokens; run_fetch returns the
warning response at main.py line 289, before the cleanup block, and the
downloaded warehouse credential /tmp/bigquery-key.json is left behind.
A client bootstrap failure after the key download (an exception exit) leaves
it behind too. -/
theorem cleanup_counterexample :
    runFetchFS 5 ∅ ⟨true, true, []⟩ = (RunResponse.warning, [keyPath]) ∧
    keyPath ∈ (runFetchFS 5 ∅ ⟨true, true, []⟩).2 ∧
    runFetchFS 5 ∅ ⟨true, false, []⟩ = (RunResponse.error, [keyPath]) := by
  refine ⟨rfl, ?_, rfl⟩
  show keyPath ∈ [keyPath]
  exact List.mem_singleton.mpr rfl

/-- Claim C2 (amended): temporary artifacts are removed only on the
successful-completion exit path, and what is removed there is each token
file that reached token_paths plus the warehouse credential (removal
failures swallowed); the files left behind on the success path are exactly
the token files written by downloads whose validation then failed.  On the
bootstrap-failure (Fatal) exits and on the no-tokens warning exit nothing
is removed: whatever was downloaded up to that point stays.  The
distinct-paths hypotheses rule out two listed tokens sharing a /tmp
target. -/
theorem cleanup_only_on_success (M : Nat) (ex : Finset String) (o : RunOracle)
    (hnd : (writtenPaths o.tokens).Nodup)
    (hkey : keyPath ∉ writtenPaths o.tokens) :
    (o.keyDownloadOk = false → (runFetchFS M ex o).2 = []) ∧
    (o.keyDownloadOk = true → o.clientInitOk = false →
      (runFetchFS M ex o).2 = [keyPath]) ∧
    (o.keyDownloadOk = true → o.clientInitOk = true → o.tokens = [] →
      (runFetchFS M ex o).2 = [keyPath]) ∧
    (o.keyDownloadOk = true → o.clientInitOk = true → o.tokens ≠ [] →
      (runFetchFS M ex o).2
        = ((o.tokens.filter (fun tf => tokenFileWritten tf.name)).filter
            (fun tf => decide (tf.outcome = TokenOutcome.writeFail))).map
          (fun tf => tokenPath tf.name)) := by
  obtain ⟨kOk, cOk, ts⟩ := o
  refine ⟨?_, ?_, ?_, ?_⟩
  · intro hk
    subst hk
    rfl
  · intro hk hc
    subst hk
    subst hc
    rfl
  · intro hk hc hts
    subst hk
    subst hc
    subst hts
    rfl
  · intro hk hc hne
    subst hk
    subst hc
    simp only at hnd hkey
    have h1 : ts.isEmpty = false := List.isEmpty_eq_false.mpr hne
    simp only [runFetchFS, h1, Bool.not_true, Bool.false_eq_true, if_false]
    have hnd1 : (keyPath :: writtenPaths ts).Nodup :=
      List.nodup_cons.mpr ⟨hkey, hnd⟩
    have hkp : decide (keyPath ∉ procPaths ts) = true :=
      decide_eq_true (fun hmem => hkey (procPaths_subset_writtenPaths ts keyPath hmem))
    rw [foldl_erase_eq_filter (procPaths ts) _ hnd1,
      @List.filter_cons_of_pos _ (fun x => decide (x ∉ procPaths ts))
        keyPath (writtenPaths ts) hkp,
      List.erase_cons_head]
    unfold writtenPaths
    rw [List.filter_map]
    unfold procPaths
    rw [procTokens_eq_filter]
    have hfin := filter_writeFail_aux (ts.filter (fun tf => tokenFileWritten tf.name))
      (by unfold writtenPaths at hnd; exact hnd)
    exact congrArg (List.map (fun tf => tokenPath tf.name))
      ((List.filter_congr (fun x hx => rfl)).trans hfin)

theorem cleanup_only_on_success_witness :
    (runFetchFS 5 ∅ ⟨true, true,
        [⟨"tokA", TokenOutcome.okTok, Except.error "x", fun _ => InsertOutcome.ok⟩,
         ⟨"tokB", TokenOutcome.writeFail, Except.error "y", fun _ => InsertOutcome.ok⟩]⟩).2
      = (([(⟨"tokA", TokenOutcome.okTok, Except.error "x", fun _ => InsertOutcome.ok⟩ : TokenFile),
           ⟨"tokB", TokenOutcome.writeFail, Except.error "y", fun _ => InsertOutcome.ok⟩].filter
              (fun tf => tokenFileWritten tf.name)).filter
            (fun tf => decide (tf.outcome = TokenOutcome.writeFail))).map
          (fun tf => tokenPath tf.name) :=
  (cleanup_only_on_success 5 ∅ ⟨true, true,
      [⟨"tokA", TokenOutcome.okTok, Except.error "x", fun _ => InsertOutcome.ok⟩,
       ⟨"tokB", TokenOutcome.writeFail, Except.error "y", fun _ => InsertOutcome.ok⟩]⟩
    (by decide) (by decide)).2.2.2
    rfl rfl (by simp)

end GmailBQ
